import Mathlib

/-!
Verification of the gen-unit-ai repository's extraction core and UI glue.

The repository's frontend components (`FileUpload`, `TestGeneration`, `Index`)
are embedded directly from the TypeScript source.  The backend extraction core
(candidate parsers, reconciler, bundle assembly) is described by the design
document but its Python sources are not part of the file set, so those
operations are modelled from the spec where indicated.
-/

namespace GenUnitAI

/-! ## Decimal rendering of a natural number

Embeds JavaScript `String(n)` for a non-negative integer: the decimal digit
string, most significant digit first, no leading zeros. -/

/-- One decimal digit character. -/
def natDigitChar : Nat → Char
  | 0 => '0'
  | 1 => '1'
  | 2 => '2'
  | 3 => '3'
  | 4 => '4'
  | 5 => '5'
  | 6 => '6'
  | 7 => '7'
  | 8 => '8'
  | _ => '9'

/-- Numeric value of a digit character. -/
def digitVal (c : Char) : Nat := c.toNat - 48

/-- Decimal digits of `n`, most significant first, with explicit structural
fuel so that the definition reduces in the kernel.  Fuel `n + 1` always
suffices. -/
def natToDigitsAux : Nat → Nat → List Char
  | 0, _ => []
  | fuel + 1, n =>
    if n < 10 then [natDigitChar n]
    else natToDigitsAux fuel (n / 10) ++ [natDigitChar (n % 10)]

/-- Decimal digits of `n`, most significant first (JS `String(n)`). -/
def natToDigits (n : Nat) : List Char := natToDigitsAux (n + 1) n

/-- JS `String(n)` for a natural number. -/
def natToString (n : Nat) : String := String.mk (natToDigits n)

/-- Value of a big-endian digit list. -/
def digitsVal (cs : List Char) : Nat :=
  cs.foldl (fun acc c => acc * 10 + digitVal c) 0

/-! ## JS `String.prototype.padStart`

`padStart s n c` prepends copies of `c` until the length is at least `n`
(unchanged when the string is already long enough). -/

def padStart (s : String) (n : Nat) (c : Char) : String :=
  String.mk (List.replicate (n - s.length) c) ++ s

/-! ## Keyed first-occurrence accumulation

The reconciler (spec §4.3) walks candidates in priority order and accumulates
records into a working list keyed by a dedup key; a record is appended only if
no already-accepted record shares its key.  The same fold shape computes
`summary.functions_tested` (distinct names, first-seen order). -/

section DedupDefs

variable {α β : Type} [DecidableEq β]

/-- One accumulation step: append `x` unless a kept element already has its key. -/
def dedupInsertBy (key : α → β) (acc : List α) (x : α) : List α :=
  if ∃ a ∈ acc, key a = key x then acc else acc ++ [x]

/-- Fold a whole candidate list into the accumulator. -/
def accumulateBy (key : α → β) (acc : List α) (l : List α) : List α :=
  l.foldl (dedupInsertBy key) acc

/-- Structural form: keep each key's first occurrence, in order. -/
def firstOccBy (key : α → β) : List α → List α
  | [] => []
  | x :: xs => x :: firstOccBy key (xs.filter fun y => decide (key y ≠ key x))
termination_by l => l.length
decreasing_by simpa using Nat.lt_succ_of_le (List.length_filter_le _ xs)

end DedupDefs


/-! ## Data model (spec §3) -/

/-- Modelled from the spec: `TestCaseRecord.category` with the four listed values. -/
inductive Category
  | positive
  | negative
  | boundary
  | error
deriving DecidableEq

/-- Modelled from the spec: the `TestCaseRecord` fields of §3. -/
structure TestCaseRecord where
  id : String
  function_name : String
  description : String
  input_data : String
  expected_output : String
  category : Category
  test_code : String
deriving DecidableEq

/-- ASCII lower-casing of one character. -/
def lowerChar (c : Char) : Char :=
  if 'A' ≤ c ∧ c ≤ 'Z' then Char.ofNat (c.toNat + 32) else c

/-- Split a character list into maximal whitespace-free words. -/
def wordsAux : List Char → List Char → List (List Char)
  | [], cur => if cur.isEmpty then [] else [cur.reverse]
  | c :: cs, cur =>
    if c.isWhitespace then
      if cur.isEmpty then wordsAux cs [] else cur.reverse :: wordsAux cs []
    else wordsAux cs (c :: cur)

/-- Join words with single spaces. -/
def joinWords : List (List Char) → List Char
  | [] => []
  | [w] => w
  | w :: ws => w ++ ' ' :: joinWords ws

/-- Modelled from the spec: the §4.3 dedup-key normalization — case-insensitive
and whitespace-collapsed (words joined by single spaces, outer whitespace
trimmed). -/
def normalizeField (s : String) : String :=
  String.mk (joinWords (wordsAux (s.data.map lowerChar) []))

/-- Modelled from the spec: the dedup key is the normalized
`(function_name, description)` pair. -/
def dedupKey (r : TestCaseRecord) : String × String :=
  (normalizeField r.function_name, normalizeField r.description)

/-! ## Reconciler (spec §4.3)

The Python reconciler itself is not among the provided sources; the following
definitions are modelled from the spec, steps 1–2 and 4–6 of §4.3. -/

/-- Modelled from the spec: walk candidates in priority order, accumulating
records; a later record is accepted only if no accepted record shares its
dedup key. -/
def reconcile (candidates : List (List TestCaseRecord)) : List TestCaseRecord :=
  candidates.foldl (accumulateBy dedupKey) []

/-- Embeds the frontend Excel-report ID cell
`TC_{String(index + 1).padStart(3, '0')}` (TestGeneration component), which is
also the spec's reconciler-assigned ID format `"TC_001", "TC_002", …`. -/
def renderTestId (index : Nat) : String :=
  "TC_" ++ padStart (natToString (index + 1)) 3 '0'

/-- Modelled from the spec: §4.3 step 4 — after accumulation, assign sequential
IDs in final-list order, ignoring any id present in the source data. -/
def assignIds (rs : List TestCaseRecord) : List TestCaseRecord :=
  rs.enum.map fun p => { p.2 with id := renderTestId p.1 }

/-- Modelled from the spec: §4.3 step 6 — distinct `function_name` values in
first-seen order. -/
def functionsTested (rs : List TestCaseRecord) : List String :=
  accumulateBy (fun s : String => s) [] (rs.map (·.function_name))

/-- Modelled from the spec: the `summary` component of a bundle. -/
structure BundleSummary where
  total_tests : Nat
  functions_tested : List String
  coverage_areas : List String
deriving DecidableEq

/-- Modelled from the spec: `TestArtifactBundle` (§3), with the script fields
named as in the backend response shape documented in the README. -/
structure TestArtifactBundle where
  test_cases : List TestCaseRecord
  test_runner_script : String
  makefile_content : String
  summary : BundleSummary
deriving DecidableEq

/-- Modelled from the spec: bundle assembly — `test_cases` is the reconciled
list with reconciler-assigned IDs, and `summary` is derived from it. -/
def mkBundle (recs : List TestCaseRecord) (runner makefile : String) :
    TestArtifactBundle :=
  let tcs := assignIds recs
  { test_cases := tcs
    test_runner_script := runner
    makefile_content := makefile
    summary :=
      { total_tests := tcs.length
        functions_tested := functionsTested tcs
        coverage_areas := [] } }

/-- Numeric part of a rendered `TC_NNN` ID. -/
def decodeTestId (s : String) : Nat := digitsVal (s.data.drop 3)

/-! ## Candidate-parser record validation (spec §4.2)

The Python candidate parsers are not among the provided sources; the
validation step is modelled from the spec. -/

/-- A record as it comes out of envelope parsing, every field possibly
missing. -/
structure RawRecord where
  function_name : Option String
  description : Option String
  input_data : Option String
  expected_output : Option String
  category : Option Category
  test_code : Option String
deriving DecidableEq

/-- Modelled from the spec: `ParseIssue` — a non-fatal, per-record issue. -/
structure ParseIssue where
  message : String
deriving DecidableEq

/-- Modelled from the spec: §4.2 — a record missing `function_name` or
`test_code` is rejected with an issue; a missing `description` (or any other
textual field) degrades to the empty string. -/
def validateRecord (r : RawRecord) : Except ParseIssue TestCaseRecord :=
  if r.function_name.getD "" = "" then Except.error ⟨"missing function_name"⟩
  else if r.test_code.getD "" = "" then Except.error ⟨"missing test_code"⟩
  else Except.ok
    { id := ""
      function_name := r.function_name.getD ""
      description := r.description.getD ""
      input_data := r.input_data.getD ""
      expected_output := r.expected_output.getD ""
      category := r.category.getD Category.positive
      test_code := r.test_code.getD "" }

/-- Modelled from the spec: a candidate parser returns the usable records and
the per-record issues; one bad record never discards the candidate. -/
def parseCandidate (rs : List RawRecord) : List TestCaseRecord × List ParseIssue :=
  (rs.filterMap fun r => (validateRecord r).toOption,
   rs.filterMap fun r =>
     match validateRecord r with
     | Except.error e => some e
     | Except.ok _ => none)

/-! ## Frontend component state (TestGeneration) -/

/-- The `TestStatus` union of the TestGeneration components (the variant with
the 'running' stage; the API-calling variant omits 'running' but is otherwise
identical). -/
inductive TestStatus
  | idle
  | generating
  | parsing
  | running
  | completed
  | failed
deriving DecidableEq

/-- Embeds the Generate-button `disabled` expression
`status !== 'idle' && status !== 'completed' && status !== 'failed'`. -/
def buttonDisabled (s : TestStatus) : Bool :=
  decide (s ≠ TestStatus.idle) && decide (s ≠ TestStatus.completed) &&
    decide (s ≠ TestStatus.failed)

/-- The `data` object of a `/generate_tests` response, fields possibly
absent. -/
structure ResponseData where
  test_cases : Option (List TestCaseRecord)
  test_runner_script : Option String
  makefile_content : Option String
deriving DecidableEq

/-- A `/generate_tests` response envelope. -/
structure GenResponse where
  status : String
  message : Option String
  data : Option ResponseData
deriving DecidableEq

/-- The client-visible outcome of one `generateTests` run: final status,
progress label, the argument passed to the `onTestGenerated` callback
(`none` = never invoked), and the state fed to the report dialogs. -/
structure GenOutcome where
  status : TestStatus
  currentStep : String
  callback : Option ResponseData
  excelData : Option (List TestCaseRecord)
  testScripts : Option (String × String × List TestCaseRecord)
deriving DecidableEq

/-- The `catch` branch of `generateTests`: status 'failed', step label set,
no callback, no report data. -/
def failedOutcome : GenOutcome :=
  { status := TestStatus.failed
    currentStep := "Generation failed"
    callback := none
    excelData := none
    testScripts := none }

/-- Embeds the response handling of `generateTests` (TestGeneration): on
`response.status === 'success' && response.data` the component stores the
data, completes and invokes `onTestGenerated`; otherwise it throws into the
`catch` branch. -/
def processResponse (resp : GenResponse) : GenOutcome :=
  match resp.data with
  | some d =>
    if resp.status = "success" then
      { status := TestStatus.completed
        currentStep := "Test Generation Complete"
        callback := some d
        excelData := some (d.test_cases.getD [])
        testScripts :=
          some (d.test_runner_script.getD "", d.makefile_content.getD "",
            d.test_cases.getD []) }
    else failedOutcome
  | none => failedOutcome

/-- Modelled from the spec: §4.3 step 5 — an empty final list is reported as
the terminal `NoExtractableTestCases` condition, not as an empty bundle. -/
def reconcilerOutcome (recs : List TestCaseRecord) (runner makefile : String) :
    Except String TestArtifactBundle :=
  if recs.isEmpty then Except.error "NoExtractableTestCases"
  else Except.ok (mkBundle recs runner makefile)

/-- Bundle contents in the response `data` shape documented in the README. -/
def toResponseData (b : TestArtifactBundle) : ResponseData :=
  { test_cases := some b.test_cases
    test_runner_script := some b.test_runner_script
    makefile_content := some b.makefile_content }

/-- Modelled from the spec: the backend response envelope — success carries
`data`; a terminal condition carries a non-success status with a message and
no `data`. -/
def backendResponse (recs : List TestCaseRecord) (runner makefile : String) :
    GenResponse :=
  match reconcilerOutcome recs runner makefile with
  | Except.ok b => { status := "success", message := none, data := some (toResponseData b) }
  | Except.error e => { status := "error", message := some e, data := none }

/-! ## Frontend file handling (FileUpload, generateTests fileData) -/

/-- File classification used by the upload component. -/
inductive FileType
  | source
  | header
deriving DecidableEq

/-- An `UploadedFile` of the FileUpload component. -/
structure UploadedFile where
  id : String
  name : String
  size : Nat
  type : FileType
  content : Option String
deriving DecidableEq

/-- A `{filename, content, size}` record of the `/generate_tests` request. -/
structure FileData where
  filename : String
  content : String
  size : Nat
deriving DecidableEq

/-- JS `String.prototype.endsWith`, on the character sequences. -/
def jsEndsWith (s suffix : String) : Bool := suffix.data.isSuffixOf s.data

/-- Embeds the classification in `FileUpload.processFiles`:
`file.name.endsWith('.h') ? 'header' : 'source'`. -/
def classifyFile (name : String) : FileType :=
  if jsEndsWith name ".h" then FileType.header else FileType.source

/-- Embeds the file chooser's `accept=".c,.cpp,.h,.hpp"` attribute: a name is
accepted when it carries one of the listed extensions. -/
def acceptedByChooser (name : String) : Bool :=
  [".c", ".cpp", ".h", ".hpp"].any fun ext => jsEndsWith name ext

/-- Embeds the `fileData` mapping in `generateTests`:
`files.map(file => ({filename: file.name, content: file.content || '', size:
file.size}))`. -/
def toFileData (files : List UploadedFile) : List FileData :=
  files.map fun f => { filename := f.name, content := f.content.getD "", size := f.size }

/-- Embeds `FileUpload.removeFile`:
`files.filter(file => file.id !== id)`. -/
def removeFile (files : List UploadedFile) (id : String) : List UploadedFile :=
  files.filter fun f => decide (f.id ≠ id)

/-! ## Concrete inputs used by witness instantiations -/

/-- Two valid records with distinct dedup keys. -/
def sampleRecs : List TestCaseRecord :=
  [{ id := "TC_999"
     function_name := "test_add"
     description := "adds two numbers"
     input_data := "1, 2"
     expected_output := "3"
     category := Category.positive
     test_code := "void test_add(void) { }" },
   { id := "TC_999"
     function_name := "test_sub"
     description := "subtracts"
     input_data := "3, 1"
     expected_output := "2"
     category := Category.negative
     test_code := "void test_sub(void) { }" }]

/-- Raw parse results: one fully valid record, one with no test code, one
valid but with no description. -/
def sampleRaws : List RawRecord :=
  [{ function_name := some "test_add"
     description := some "adds"
     input_data := some "1"
     expected_output := some "2"
     category := some Category.positive
     test_code := some "code" },
   { function_name := some "test_bad"
     description := none
     input_data := none
     expected_output := none
     category := none
     test_code := none },
   { function_name := some "test_nodesc"
     description := none
     input_data := none
     expected_output := none
     category := none
     test_code := some "code2" }]

/-- Two uploaded files, the second with no loaded content, plus one sharing
the first one's (randomly generated, hence possibly colliding) id. -/
def sampleFiles : List UploadedFile :=
  [{ id := "abc123def"
     name := "math.c"
     size := 120
     type := FileType.source
     content := some "int add(int a, int b) { return a + b; }" },
   { id := "zz9top0aa"
     name := "math.h"
     size := 40
     type := FileType.header
     content := none },
   { id := "abc123def"
     name := "util.c"
     size := 60
     type := FileType.source
     content := some "" }]

/-- A concrete non-success response used by witness instantiations. -/
def sampleErrorResponse : GenResponse :=
  { status := "error", message := some "NoExtractableTestCases", data := none }

/-! ## Theorems -/

theorem digitVal_natDigitChar {d : Nat} (h : d < 10) :
    digitVal (natDigitChar d) = d := by
  interval_cases d <;> rfl

theorem digitsVal_append (xs ys : List Char) :
    digitsVal (xs ++ ys) =
      ys.foldl (fun acc c => acc * 10 + digitVal c) (digitsVal xs) := by
  simp [digitsVal, List.foldl_append]

theorem digitsVal_natToDigitsAux (fuel n : Nat) (h : n < fuel) :
    digitsVal (natToDigitsAux fuel n) = n := by
  induction fuel generalizing n with
  | zero => omega
  | succ fuel ih =>
    rw [natToDigitsAux]
    split
    · next hlt => simp [digitsVal, digitVal_natDigitChar hlt]
    · next hge =>
      rw [digitsVal_append]
      have hdiv : n / 10 < fuel := by
        have := Nat.div_lt_self (show 0 < n by omega) (show (1 : Nat) < 10 by omega)
        omega
      simp [List.foldl, ih _ hdiv, digitVal_natDigitChar (Nat.mod_lt n (by omega))]
      omega

/-- Round trip: the decimal digits of `n` evaluate back to `n`. -/
theorem digitsVal_natToDigits (n : Nat) : digitsVal (natToDigits n) = n :=
  digitsVal_natToDigitsAux (n + 1) n (by omega)

/-- Leading `'0'` characters do not change the value of a digit list. -/
theorem digitsVal_replicate_zero_append (k : Nat) (cs : List Char) :
    digitsVal (List.replicate k '0' ++ cs) = digitsVal cs := by
  induction k with
  | zero => simp
  | succ k ih =>
    have : List.replicate (k + 1) '0' ++ cs = '0' :: (List.replicate k '0' ++ cs) := by
      simp [List.replicate_succ]
    rw [this]
    simpa [digitsVal, digitVal] using ih

theorem padStart_data (s : String) (n : Nat) (c : Char) :
    (padStart s n c).data = List.replicate (n - s.length) c ++ s.data := by
  simp [padStart, String.data_append]

/-! ## Properties of keyed first-occurrence accumulation

We prove the accumulate fold equal to a structural "keep the first occurrence
of each key" recursion and derive its properties from that. -/

section DedupLemmas

variable {α β : Type} [DecidableEq β]

theorem firstOccBy_subset (key : α → β) (l : List α) :
    ∀ a ∈ firstOccBy key l, a ∈ l := by
  induction l using firstOccBy.induct key with
  | case1 => simp [firstOccBy]
  | case2 x xs ih =>
    intro a ha
    rw [firstOccBy] at ha
    rcases List.mem_cons.mp ha with rfl | ha
    · exact List.mem_cons_self _ _
    · exact List.mem_cons_of_mem x (List.mem_of_mem_filter (ih a ha))

theorem accumulateBy_eq_append (key : α → β) (l : List α) :
    ∀ acc, accumulateBy key acc l =
      acc ++ firstOccBy key (l.filter fun y => decide (∀ a ∈ acc, key a ≠ key y)) := by
  induction l with
  | nil => intro acc; simp [accumulateBy, firstOccBy]
  | cons x xs ih =>
    intro acc
    by_cases hx : ∃ a ∈ acc, key a = key x
    · have hstep : dedupInsertBy key acc x = acc := by
        simp [dedupInsertBy, hx]
      have hxfail : (decide (∀ a ∈ acc, key a ≠ key x)) = false := by
        simp only [decide_eq_false_iff_not]
        push_neg
        exact hx
      have hfilter :
          (x :: xs).filter (fun y => decide (∀ a ∈ acc, key a ≠ key y)) =
            xs.filter (fun y => decide (∀ a ∈ acc, key a ≠ key y)) := by
        simp [List.filter_cons, hxfail]
      calc accumulateBy key acc (x :: xs)
          = accumulateBy key acc xs := by
            simp [accumulateBy, List.foldl_cons, hstep]
        _ = acc ++ firstOccBy key (xs.filter fun y => decide (∀ a ∈ acc, key a ≠ key y)) :=
            ih acc
        _ = acc ++ firstOccBy key ((x :: xs).filter fun y => decide (∀ a ∈ acc, key a ≠ key y)) := by
            rw [hfilter]
    · have hstep : dedupInsertBy key acc x = acc ++ [x] := by
        simp only [dedupInsertBy, if_neg hx]
      have hxpass : (decide (∀ a ∈ acc, key a ≠ key x)) = true := by
        simp only [decide_eq_true_iff]
        intro a ha hk
        exact hx ⟨a, ha, hk⟩
      have hfilter :
          (x :: xs).filter (fun y => decide (∀ a ∈ acc, key a ≠ key y)) =
            x :: xs.filter (fun y => decide (∀ a ∈ acc, key a ≠ key y)) := by
        simp [List.filter_cons, hxpass]
      have hxs :
          xs.filter (fun y => decide (∀ a ∈ (acc ++ [x]), key a ≠ key y)) =
            (xs.filter fun y => decide (∀ a ∈ acc, key a ≠ key y)).filter
              (fun y => decide (key y ≠ key x)) := by
        rw [List.filter_filter]
        apply List.filter_congr
        intro y _
        rw [← Bool.decide_and, decide_eq_decide]
        constructor
        · intro h
          refine ⟨fun hk => h x (List.mem_append_right _ (by simp)) hk.symm, ?_⟩
          exact fun a ha => h a (List.mem_append_left _ ha)
        · rintro ⟨h2, h1⟩ a ha
          rcases List.mem_append.mp ha with ha | ha
          · exact h1 a ha
          · simp only [List.mem_singleton] at ha
            subst ha
            exact fun hk => h2 hk.symm
      calc accumulateBy key acc (x :: xs)
          = accumulateBy key (acc ++ [x]) xs := by
            simp [accumulateBy, List.foldl_cons, hstep]
        _ = (acc ++ [x]) ++ firstOccBy key
              (xs.filter fun y => decide (∀ a ∈ (acc ++ [x]), key a ≠ key y)) :=
            ih (acc ++ [x])
        _ = acc ++ firstOccBy key ((x :: xs).filter fun y => decide (∀ a ∈ acc, key a ≠ key y)) := by
            rw [hxs, hfilter, firstOccBy]
            simp

/-- Accumulating into an empty working list is exactly first-occurrence dedup. -/
theorem accumulateBy_nil (key : α → β) (l : List α) :
    accumulateBy key [] l = firstOccBy key l := by
  have h := accumulateBy_eq_append key l []
  have hfilter : (l.filter fun y => decide (∀ a ∈ ([] : List α), key a ≠ key y)) = l := by
    apply List.filter_eq_self.mpr
    intro a _
    simp
  simpa [hfilter] using h

/-- Filtering by a weaker predicate does not change what `find?` returns. -/
theorem find?_filter_of_imp (p q : α → Bool) (l : List α)
    (h : ∀ y, p y = true → q y = true) :
    (l.filter q).find? p = l.find? p := by
  induction l with
  | nil => rfl
  | cons x xs ih =>
    by_cases hq : q x = true
    · rw [List.filter_cons_of_pos hq]
      by_cases hp : p x = true
      · simp [List.find?_cons, hp]
      · simp only [Bool.not_eq_true] at hp
        simp [List.find?_cons, hp, ih]
    · simp only [Bool.not_eq_true] at hq
      have hp : p x = false := by
        by_contra hc
        simp only [Bool.not_eq_false] at hc
        exact absurd (h x hc) (by simp [hq])
      rw [List.filter_cons_of_neg (by simp [hq])]
      simp [List.find?_cons, hp, ih]

/-- An element is kept by first-occurrence dedup exactly when it is the first
element of the list carrying its key. -/
theorem mem_firstOccBy (key : α → β) (l : List α) (a : α) :
    a ∈ firstOccBy key l ↔ l.find? (fun y => decide (key y = key a)) = some a := by
  induction l using firstOccBy.induct key with
  | case1 => simp [firstOccBy]
  | case2 x xs ih =>
    rw [firstOccBy]
    by_cases hka : key x = key a
    · have hnot : a ∉ firstOccBy key (xs.filter fun y => decide (key y ≠ key x)) := by
        intro hmem
        have hfil := List.of_mem_filter (firstOccBy_subset key _ a hmem)
        simp only [decide_eq_true_iff] at hfil
        exact hfil hka.symm
      rw [List.find?_cons_of_pos (p := fun y => decide (key y = key a)) _ (by simp [hka])]
      simp only [List.mem_cons]
      constructor
      · rintro (rfl | hmem)
        · rfl
        · exact absurd hmem hnot
      · intro hsome
        exact Or.inl (Option.some_injective _ hsome).symm
    · have hfind :
          (xs.filter fun y => decide (key y ≠ key x)).find?
              (fun y => decide (key y = key a)) =
            xs.find? (fun y => decide (key y = key a)) := by
        apply find?_filter_of_imp
        intro y hy
        simp only [decide_eq_true_iff] at hy ⊢
        rw [hy]
        exact fun hc => hka hc.symm
      have hax : a ≠ x := fun hc => hka (by rw [hc])
      rw [List.find?_cons_of_neg (p := fun y => decide (key y = key a)) _ (by simp [hka])]
      rw [← hfind, ← ih]
      simp only [List.mem_cons]
      constructor
      · rintro (rfl | hmem)
        · exact absurd rfl hax
        · exact hmem
      · exact Or.inr

/-- First-occurrence dedup preserves the set of keys. -/
theorem keys_firstOccBy (key : α → β) (l : List α) (b : β) :
    b ∈ (firstOccBy key l).map key ↔ b ∈ l.map key := by
  induction l using firstOccBy.induct key with
  | case1 => simp [firstOccBy]
  | case2 x xs ih =>
    rw [firstOccBy]
    simp only [List.map_cons, List.mem_cons]
    rw [ih]
    by_cases hb : b = key x
    · simp [hb]
    · constructor
      · rintro (h | h)
        · exact Or.inl h
        · rcases List.mem_map.mp h with ⟨y, hy, rfl⟩
          exact Or.inr (List.mem_map.mpr ⟨y, List.mem_of_mem_filter hy, rfl⟩)
      · rintro (h | h)
        · exact Or.inl h
        · rcases List.mem_map.mp h with ⟨y, hy, rfl⟩
          refine Or.inr (List.mem_map.mpr ⟨y, List.mem_filter.mpr ⟨hy, ?_⟩, rfl⟩)
          simp only [decide_eq_true_iff]
          exact hb

/-- After first-occurrence dedup, keys are pairwise distinct. -/
theorem nodup_keys_firstOccBy (key : α → β) (l : List α) :
    ((firstOccBy key l).map key).Nodup := by
  induction l using firstOccBy.induct key with
  | case1 => simp [firstOccBy]
  | case2 x xs ih =>
    rw [firstOccBy]
    simp only [List.map_cons, List.nodup_cons]
    refine ⟨?_, ih⟩
    intro hmem
    rw [keys_firstOccBy] at hmem
    rcases List.mem_map.mp hmem with ⟨y, hy, hk⟩
    have := List.of_mem_filter hy
    simp only [decide_eq_true_iff] at this
    exact this hk

/-- A list whose keys are already pairwise distinct is left unchanged. -/
theorem firstOccBy_eq_self_of_nodup (key : α → β) (l : List α)
    (h : (l.map key).Nodup) : firstOccBy key l = l := by
  induction l using firstOccBy.induct key with
  | case1 => rw [firstOccBy]
  | case2 x xs ih =>
    simp only [List.map_cons, List.nodup_cons] at h
    have hfilter : (xs.filter fun y => decide (key y ≠ key x)) = xs := by
      apply List.filter_eq_self.mpr
      intro y hy
      simp only [decide_eq_true_iff]
      exact fun hc => h.1 (List.mem_map.mpr ⟨y, hy, hc⟩)
    rw [firstOccBy, ih (by rw [hfilter]; exact h.2), hfilter]

end DedupLemmas


theorem decodeTestId_renderTestId (i : Nat) :
    decodeTestId (renderTestId i) = i + 1 := by
  have hdata : (renderTestId i).data =
      'T' :: 'C' :: '_' ::
        (List.replicate (3 - (natToString (i + 1)).length) '0' ++ natToDigits (i + 1)) := by
    simp [renderTestId, String.data_append, padStart_data, natToString]
  rw [decodeTestId, hdata]
  simp only [List.drop_succ_cons, List.drop_zero]
  rw [digitsVal_replicate_zero_append, digitsVal_natToDigits]

theorem renderTestId_injective : Function.Injective renderTestId := by
  intro i j h
  have := congrArg decodeTestId h
  rw [decodeTestId_renderTestId, decodeTestId_renderTestId] at this
  omega

theorem reconcile_single (recs : List TestCaseRecord)
    (hkeys : (recs.map dedupKey).Nodup) : reconcile [recs] = recs := by
  show accumulateBy dedupKey [] recs = recs
  rw [accumulateBy_nil, firstOccBy_eq_self_of_nodup _ _ hkeys]

theorem length_assignIds (rs : List TestCaseRecord) :
    (assignIds rs).length = rs.length := by
  simp [assignIds]

theorem map_id_assignIds (rs : List TestCaseRecord) :
    (assignIds rs).map (fun r => r.id) = (List.range rs.length).map renderTestId := by
  rw [assignIds, List.map_map]
  have hfun :
      ((fun r : TestCaseRecord => r.id) ∘
          fun p : Nat × TestCaseRecord => { p.2 with id := renderTestId p.1 }) =
        (renderTestId ∘ Prod.fst) := rfl
  rw [hfun, ← List.map_map, List.enum_eq_enumFrom, List.enumFrom_map_fst,
    List.range_eq_range']

theorem map_decode_assignIds (rs : List TestCaseRecord) :
    (assignIds rs).map (fun r => decodeTestId r.id) =
      (List.range rs.length).map (fun i => i + 1) := by
  have h : (assignIds rs).map (fun r => decodeTestId r.id) =
      ((assignIds rs).map (fun r => r.id)).map decodeTestId := by
    rw [List.map_map]; rfl
  rw [h, map_id_assignIds, List.map_map]
  apply List.map_congr_left
  intro i _
  exact decodeTestId_renderTestId i

/-- Walking the candidates in priority order is first-occurrence dedup of
their concatenation. -/
theorem reconcile_eq_firstOccBy (cands : List (List TestCaseRecord)) :
    reconcile cands = firstOccBy dedupKey cands.flatten := by
  rw [← accumulateBy_nil, accumulateBy, List.foldl_flatten]
  rfl

theorem functionsTested_eq (rs : List TestCaseRecord) :
    functionsTested rs = firstOccBy (fun s : String => s) (rs.map (·.function_name)) :=
  accumulateBy_nil _ _

/-- Filtering preserves the relative order of first-occurrence positions. -/
theorem indexOf_mono_of_filter {α : Type} [DecidableEq α] (p : α → Bool)
    (l : List α) (a b : α) (ha : p a = true) (hb : p b = true)
    (h : (l.filter p).indexOf a < (l.filter p).indexOf b) :
    l.indexOf a < l.indexOf b := by
  induction l with
  | nil => simp at h
  | cons y ys ih =>
    by_cases hy : p y = true
    · rw [List.filter_cons_of_pos hy] at h
      by_cases hby : y = b
      · subst hby
        rw [List.indexOf_cons_self] at h
        omega
      · by_cases hay : y = a
        · subst hay
          rw [List.indexOf_cons_self, List.indexOf_cons_ne _ hby]
          omega
        · rw [List.indexOf_cons_ne _ hay, List.indexOf_cons_ne _ hby] at h
          rw [List.indexOf_cons_ne _ hay, List.indexOf_cons_ne _ hby]
          exact Nat.succ_lt_succ (ih (Nat.lt_of_succ_lt_succ h))
    · have hay : y ≠ a := fun hc => hy (hc ▸ ha)
      have hby : y ≠ b := fun hc => hy (hc ▸ hb)
      rw [List.filter_cons_of_neg (by simp [Bool.not_eq_true] at hy ⊢; exact hy)] at h
      rw [List.indexOf_cons_ne _ hay, List.indexOf_cons_ne _ hby]
      exact Nat.succ_lt_succ (ih h)

/-- The elements kept by identity-keyed first-occurrence dedup are ordered by
their first occurrence in the original list. -/
theorem firstOcc_pairwise_indexOf {α : Type} [DecidableEq α] (l : List α) :
    (firstOccBy (fun a : α => a) l).Pairwise
      (fun a b => l.indexOf a < l.indexOf b) := by
  induction l using firstOccBy.induct (fun a : α => a) with
  | case1 => simp [firstOccBy]
  | case2 x xs ih =>
    rw [firstOccBy]
    refine List.Pairwise.cons ?_ ?_
    · intro b hb
      have hbf := List.of_mem_filter (firstOccBy_subset _ _ b hb)
      simp only [decide_eq_true_iff] at hbf
      rw [List.indexOf_cons_self, List.indexOf_cons_ne _ (fun hc => hbf hc.symm)]
      omega
    · refine List.Pairwise.imp_of_mem ?_ ih
      intro a b ha hb hab
      have hax := List.of_mem_filter (firstOccBy_subset _ _ a ha)
      have hbx := List.of_mem_filter (firstOccBy_subset _ _ b hb)
      simp only [decide_eq_true_iff] at hax hbx
      have := indexOf_mono_of_filter (fun y => decide (y ≠ x)) xs a b
        (decide_eq_true hax) (decide_eq_true hbx) hab
      rw [List.indexOf_cons_ne _ (fun hc => hax hc.symm),
        List.indexOf_cons_ne _ (fun hc => hbx hc.symm)]
      omega

/-- Field facts about a successfully validated record. -/
theorem validateRecord_ok_fields (r : RawRecord) (t : TestCaseRecord)
    (h : validateRecord r = Except.ok t) :
    r.function_name.getD "" ≠ "" ∧ r.test_code.getD "" ≠ "" ∧
      t.function_name = r.function_name.getD "" ∧
      t.test_code = r.test_code.getD "" ∧
      t.description = r.description.getD "" := by
  unfold validateRecord at h
  split_ifs at h with h1 h2
  simp only [Except.ok.injEq] at h
  refine ⟨h1, h2, ?_, ?_, ?_⟩ <;> rw [← h]

/-- A record is rejected exactly when `function_name` or `test_code` is
missing or empty. -/
theorem validateRecord_error_iff (r : RawRecord) :
    (r.function_name.getD "" = "" ∨ r.test_code.getD "" = "") ↔
      ∃ e, validateRecord r = Except.error e := by
  unfold validateRecord
  split_ifs with h1 h2
  · exact ⟨fun _ => ⟨_, rfl⟩, fun _ => Or.inl h1⟩
  · exact ⟨fun _ => ⟨_, rfl⟩, fun _ => Or.inr h2⟩
  · constructor
    · rintro (hc | hc)
      · exact absurd hc h1
      · exact absurd hc h2
    · rintro ⟨e, he⟩
      simp at he

/-- Two pointwise-complementary `filterMap`s split a list's length. -/
theorem length_filterMap_add {α β γ : Type} (f : α → Option β) (g : α → Option γ)
    (h : ∀ a, (f a).isSome = !(g a).isSome) (l : List α) :
    (l.filterMap f).length + (l.filterMap g).length = l.length := by
  induction l with
  | nil => rfl
  | cons a l ih =>
    rw [List.filterMap_cons, List.filterMap_cons]
    cases hf : f a with
    | some b =>
      have hg : g a = none := by
        have hh := h a
        rw [hf] at hh
        cases hga : g a
        · rfl
        · rw [hga] at hh
          simp at hh
      rw [hg]
      simp only [List.length_cons]
      omega
    | none =>
      have hg : ∃ c, g a = some c := by
        have hh := h a
        rw [hf] at hh
        cases hga : g a
        · rw [hga] at hh
          simp at hh
        · exact ⟨_, rfl⟩
      rcases hg with ⟨c, hc⟩
      rw [hc]
      simp only [List.length_cons]
      omega

/-- Every input record lands in exactly one of the two output lists. -/
theorem parseCandidate_length (rs : List RawRecord) :
    (parseCandidate rs).1.length + (parseCandidate rs).2.length = rs.length := by
  apply length_filterMap_add
  intro r
  cases validateRecord r <;> simp [Except.toOption]

/-! ## Claim theorems -/

/-- **C1.** For every well-formed structured-block input — valid records whose
dedup keys are pairwise distinct — the reconciled, ID-assigned test-case list
has exactly as many records as the input; the rendered ID at 0-based position
`i` is `"TC_"` followed by `i + 1` in decimal, left-padded with `'0'` to at
least three digits (so `"TC_001"`, `"TC_002"`, …, `"TC_012"`); the ID column
depends only on the position and count of the final list (the right-hand side
of the second conjunct mentions no field of the input records, in particular
no source `id`); the numeric parts are strictly increasing along the list; and
the IDs are unique within the bundle. -/
theorem c1_sequential_reconciler_ids (recs : List TestCaseRecord)
    (hkeys : (recs.map dedupKey).Nodup) :
    (assignIds (reconcile [recs])).length = recs.length ∧
    (assignIds (reconcile [recs])).map (fun r => r.id) =
      (List.range recs.length).map renderTestId ∧
    renderTestId 0 = "TC_001" ∧ renderTestId 1 = "TC_002" ∧
    renderTestId 11 = "TC_012" ∧
    ((assignIds (reconcile [recs])).map (fun r => decodeTestId r.id)).Pairwise
      (fun m n => m < n) ∧
    ((assignIds (reconcile [recs])).map (fun r => r.id)).Nodup := by
  rw [reconcile_single recs hkeys]
  refine ⟨length_assignIds recs, map_id_assignIds recs, by decide, by decide,
    by decide, ?_, ?_⟩
  · rw [map_decode_assignIds]
    exact List.Pairwise.map _ (fun a b hab => by omega)
      (List.pairwise_lt_range recs.length)
  · rw [map_id_assignIds]
    exact (List.nodup_range recs.length).map renderTestId_injective

/-- Witness for C1: the two-record sample input satisfies the hypothesis and
the conclusion. -/
theorem c1_sequential_reconciler_ids_witness :
    (sampleRecs.map dedupKey).Nodup ∧
    ((assignIds (reconcile [sampleRecs])).length = sampleRecs.length ∧
      (assignIds (reconcile [sampleRecs])).map (fun r => r.id) =
        (List.range sampleRecs.length).map renderTestId ∧
      renderTestId 0 = "TC_001" ∧ renderTestId 1 = "TC_002" ∧
      renderTestId 11 = "TC_012" ∧
      ((assignIds (reconcile [sampleRecs])).map (fun r => decodeTestId r.id)).Pairwise
        (fun m n => m < n) ∧
      ((assignIds (reconcile [sampleRecs])).map (fun r => r.id)).Nodup) :=
  ⟨by decide, c1_sequential_reconciler_ids sampleRecs (by decide)⟩

/-- **C2.** Walking candidate parse results in priority order: a record is in
the reconciled list iff it is the first record of the priority-ordered
concatenation bearing its dedup key — so a lower-priority record is accepted
iff no already-accepted (higher-priority) record shares its key, on a key
collision the higher-priority record's fields are the ones kept, and the
result carries pairwise-distinct keys (exactly one record per key), covering
exactly the keys that occur in some candidate. -/
theorem c2_dedup_keeps_highest_priority (cands : List (List TestCaseRecord)) :
    (∀ r, r ∈ reconcile cands ↔
      cands.flatten.find? (fun x => decide (dedupKey x = dedupKey r)) = some r) ∧
    ((reconcile cands).map dedupKey).Nodup ∧
    (∀ k, k ∈ (reconcile cands).map dedupKey ↔ k ∈ cands.flatten.map dedupKey) := by
  rw [reconcile_eq_firstOccBy]
  exact ⟨fun r => mem_firstOccBy dedupKey cands.flatten r,
    nodup_keys_firstOccBy dedupKey cands.flatten,
    fun k => keys_firstOccBy dedupKey cands.flatten k⟩

/-- **C4.** Every bundle built by the pipeline satisfies
`summary.total_tests = test_cases.length`, and `summary.functions_tested` is
derived from `test_cases`: it has no duplicates, contains exactly the
`function_name` values occurring in `test_cases`, and lists them ordered by
the position of their first occurrence in the `function_name` column. -/
theorem c4_summary_is_derived (recs : List TestCaseRecord)
    (runner makefile : String) :
    (mkBundle recs runner makefile).summary.total_tests =
      (mkBundle recs runner makefile).test_cases.length ∧
    (mkBundle recs runner makefile).summary.functions_tested.Nodup ∧
    (∀ n, n ∈ (mkBundle recs runner makefile).summary.functions_tested ↔
      n ∈ (mkBundle recs runner makefile).test_cases.map (fun r => r.function_name)) ∧
    (mkBundle recs runner makefile).summary.functions_tested.Pairwise
      (fun a b =>
        ((mkBundle recs runner makefile).test_cases.map
            (fun r => r.function_name)).indexOf a <
          ((mkBundle recs runner makefile).test_cases.map
            (fun r => r.function_name)).indexOf b) := by
  have h1 : (mkBundle recs runner makefile).summary.total_tests =
      (mkBundle recs runner makefile).test_cases.length := rfl
  have htc : (mkBundle recs runner makefile).test_cases = assignIds recs := rfl
  have hft : (mkBundle recs runner makefile).summary.functions_tested =
      functionsTested (assignIds recs) := rfl
  rw [htc, hft, functionsTested_eq]
  refine ⟨h1, ?_, ?_, ?_⟩
  · simpa using nodup_keys_firstOccBy (fun s : String => s)
      ((assignIds recs).map (fun r => r.function_name))
  · intro n
    simpa using keys_firstOccBy (fun s : String => s)
      ((assignIds recs).map (fun r => r.function_name)) n
  · exact firstOcc_pairwise_indexOf ((assignIds recs).map (fun r => r.function_name))

/-- **C5.** Candidate-parser record validation: every record in a parser's
output has non-empty `function_name` and `test_code`; each input record lands
in exactly one of the two output lists (so a dropped record leaves the other
records intact and is accounted for by an issue); rejection happens exactly
when `function_name` or `test_code` is missing or empty; every accepted
record still reaches the output even when other records of the same candidate
fail; and a missing `description` degrades to the empty string instead of
causing rejection. -/
theorem c5_per_record_validation (rs : List RawRecord) :
    (∀ t ∈ (parseCandidate rs).1, t.function_name ≠ "" ∧ t.test_code ≠ "") ∧
    (parseCandidate rs).1.length + (parseCandidate rs).2.length = rs.length ∧
    (∀ r ∈ rs, ∀ t, validateRecord r = Except.ok t → t ∈ (parseCandidate rs).1) ∧
    (∀ r ∈ rs, ∀ e, validateRecord r = Except.error e → e ∈ (parseCandidate rs).2) ∧
    (∀ r, (r.function_name.getD "" = "" ∨ r.test_code.getD "" = "") ↔
      ∃ e, validateRecord r = Except.error e) ∧
    (∀ r t, validateRecord r = Except.ok t → t.description = r.description.getD "") := by
  refine ⟨?_, parseCandidate_length rs, ?_, ?_, validateRecord_error_iff, ?_⟩
  · intro t ht
    rcases List.mem_filterMap.mp ht with ⟨r, _, hv⟩
    cases hvr : validateRecord r with
    | ok t2 =>
      rw [hvr] at hv
      simp only [Except.toOption, Option.some.injEq] at hv
      subst hv
      have h := validateRecord_ok_fields r t2 hvr
      refine ⟨?_, ?_⟩
      · rw [h.2.2.1]; exact h.1
      · rw [h.2.2.2.1]; exact h.2.1
    | error e =>
      rw [hvr] at hv
      simp [Except.toOption] at hv
  · intro r hr t hv
    exact List.mem_filterMap.mpr ⟨r, hr, by rw [hv]; rfl⟩
  · intro r hr e hv
    exact List.mem_filterMap.mpr ⟨r, hr, by rw [hv]⟩
  · intro r t hv
    exact (validateRecord_ok_fields r t hv).2.2.2.2

/-- Witness for C5: with the three-record sample, the record that merely lacks
a description is accepted (description degraded to the empty string) while the
record lacking `test_code` produces an issue. -/
theorem c5_per_record_validation_witness :
    ({ id := ""
       function_name := "test_nodesc"
       description := ""
       input_data := ""
       expected_output := ""
       category := Category.positive
       test_code := "code2" } : TestCaseRecord) ∈ (parseCandidate sampleRaws).1 ∧
    (⟨"missing test_code"⟩ : ParseIssue) ∈ (parseCandidate sampleRaws).2 :=
  ⟨(c5_per_record_validation sampleRaws).2.2.1
      (sampleRaws.get ⟨2, by decide⟩) (by decide) _ (by rfl),
    (c5_per_record_validation sampleRaws).2.2.2.1
      (sampleRaws.get ⟨1, by decide⟩) (by decide) _ (by rfl)⟩

/-- **C6.** Any `/generate_tests` response that is not a success carrying data
drives the client into the 'failed' state with the `onTestGenerated` callback
never invoked; in particular the backend response for a reconciliation that
extracted no test cases (the `NoExtractableTestCases` condition) is such a
response; and this outcome is distinguishable from a genuine success whose
`data` holds zero test cases, which completes and does invoke the callback. -/
theorem c6_failure_vs_zero_tests (resp : GenResponse)
    (h : resp.status ≠ "success" ∨ resp.data = none) :
    ((processResponse resp).status = TestStatus.failed ∧
      (processResponse resp).callback = none) ∧
    (∀ runner makefile,
      (processResponse (backendResponse [] runner makefile)).status =
          TestStatus.failed ∧
      (processResponse (backendResponse [] runner makefile)).callback = none) ∧
    (∀ d : ResponseData,
      (processResponse { status := "success", message := none, data := some d }).status =
          TestStatus.completed ∧
      (processResponse { status := "success", message := none, data := some d }).callback =
          some d) := by
  refine ⟨?_, ?_, ?_⟩
  · rcases hd : resp.data with _ | d
    · simp [processResponse, hd, failedOutcome]
    · rcases h with h | h
      · simp [processResponse, hd, h, failedOutcome]
      · rw [hd] at h
        cases h
  · intro runner makefile
    exact ⟨rfl, rfl⟩
  · intro d
    exact ⟨rfl, rfl⟩

/-- Witness for C6: a concrete non-success response (backend status "error"
with no data). -/
theorem c6_failure_vs_zero_tests_witness :
    (sampleErrorResponse.status ≠ "success" ∨ sampleErrorResponse.data = none) ∧
    ((processResponse sampleErrorResponse).status = TestStatus.failed ∧
      (processResponse sampleErrorResponse).callback = none) :=
  ⟨Or.inr rfl, (c6_failure_vs_zero_tests sampleErrorResponse (Or.inr rfl)).1⟩

/-- **C7.** The request body built by `generateTests` contains exactly one
`{filename, content, size}` record per uploaded file, in the same order:
position `i` holds the `i`-th file's name and size, with `content` equal to
the file's content, or the empty string when the content is absent.  (The
mapping is a pure function of the input list, which it leaves unchanged.) -/
theorem c7_request_mirrors_files (files : List UploadedFile) :
    (toFileData files).length = files.length ∧
    (∀ (i : Nat) (f : UploadedFile), files[i]? = some f →
      ∃ d : FileData, (toFileData files)[i]? = some d ∧
        d.filename = f.name ∧
        d.size = f.size ∧
        (f.content = none → d.content = "") ∧
        (∀ c, f.content = some c → d.content = c)) := by
  constructor
  · simp [toFileData]
  · intro i f hf
    refine ⟨{ filename := f.name, content := f.content.getD "", size := f.size }, ?_,
      rfl, rfl, ?_, ?_⟩
    · rw [toFileData, List.getElem?_map, hf]
      rfl
    · intro hc
      rw [hc]
      rfl
    · intro c hc
      rw [hc]
      rfl

/-- Witness for C7: the sample upload list, at position 1 (the file whose
content was never loaded). -/
theorem c7_request_mirrors_files_witness :
    ∃ d : FileData, (toFileData sampleFiles)[1]? = some d ∧
      d.filename = "math.h" ∧
      d.size = 40 ∧
      ((sampleFiles.get ⟨1, by decide⟩).content = none → d.content = "") ∧
      (∀ c, (sampleFiles.get ⟨1, by decide⟩).content = some c → d.content = c) :=
  (c7_request_mirrors_files sampleFiles).2 1 (sampleFiles.get ⟨1, by decide⟩) (by rfl)

/-- **C8.** A file accepted by the upload component is classified 'header'
exactly when its filename ends with ".h"; in particular "example.hpp", though
matching the chooser's accept list, is classified 'source', while "example.h"
is a 'header'. -/
theorem c8_only_dot_h_is_header (name : String) :
    (classifyFile name = FileType.header ↔ ".h".data.IsSuffix name.data) ∧
    acceptedByChooser "example.hpp" = true ∧
    classifyFile "example.hpp" = FileType.source ∧
    classifyFile "example.h" = FileType.header := by
  refine ⟨?_, by decide, by decide, by decide⟩
  constructor
  · intro h
    by_cases hj : jsEndsWith name ".h" = true
    · rw [jsEndsWith] at hj
      exact List.isSuffixOf_iff_suffix.mp hj
    · rw [classifyFile, if_neg hj] at h
      cases h
  · intro h
    have hj : jsEndsWith name ".h" = true := by
      rw [jsEndsWith]
      exact List.isSuffixOf_iff_suffix.mpr h
    rw [classifyFile, if_pos hj]

/-- **C9.** The Generate button is disabled exactly in the in-flight states
'generating', 'parsing' and 'running', and enabled exactly in 'idle',
'completed' and 'failed' — so a second run cannot be started while one is in
flight. -/
theorem c9_generate_button_gating (s : TestStatus) :
    (buttonDisabled s = true ↔
      (s = TestStatus.generating ∨ s = TestStatus.parsing ∨ s = TestStatus.running)) ∧
    (buttonDisabled s = false ↔
      (s = TestStatus.idle ∨ s = TestStatus.completed ∨ s = TestStatus.failed)) := by
  cases s <;> simp [buttonDisabled]

/-- **C10.** Removing a file by id yields exactly the files whose id differs
from the given one: the result is a sublist of the input (relative order and
every other field unchanged), contains no file with the given id, and keeps
every file with a different id with its multiplicity — in particular, when
several files share the given id (ids come from `Math.random` and may
collide), all of them are removed. -/
theorem c10_removeFile_filters_by_id (files : List UploadedFile) (fid : String) :
    List.Sublist (removeFile files fid) files ∧
    (∀ f ∈ removeFile files fid, f.id ≠ fid) ∧
    (∀ f : UploadedFile, f.id ≠ fid →
      (removeFile files fid).count f = files.count f) ∧
    (∀ f : UploadedFile, f.id = fid → (removeFile files fid).count f = 0) := by
  refine ⟨List.filter_sublist files, ?_, ?_, ?_⟩
  · intro f hf
    have h := List.of_mem_filter hf
    simpa using h
  · intro f hf
    exact List.count_filter (by simpa using hf)
  · intro f hf
    apply List.count_eq_zero.mpr
    intro hmem
    have h := List.of_mem_filter hmem
    simp only [decide_eq_true_iff] at h
    exact h hf

/-- Witness for C10: removing id "abc123def" from the sample list keeps only
the header file and drops both colliding source files. -/
theorem c10_removeFile_filters_by_id_witness :
    (∀ f ∈ removeFile sampleFiles "abc123def", f.id ≠ "abc123def") ∧
    (removeFile sampleFiles "abc123def").count (sampleFiles.get ⟨1, by decide⟩) = 1 ∧
    (removeFile sampleFiles "abc123def").count (sampleFiles.get ⟨0, by decide⟩) = 0 := by
  refine ⟨(c10_removeFile_filters_by_id sampleFiles "abc123def").2.1, ?_, ?_⟩
  · rw [(c10_removeFile_filters_by_id sampleFiles "abc123def").2.2.1
      (sampleFiles.get ⟨1, by decide⟩) (by decide)]
    decide
  · exact (c10_removeFile_filters_by_id sampleFiles "abc123def").2.2.2
      (sampleFiles.get ⟨0, by decide⟩) (by decide)

end GenUnitAI
